import Mathlib

/-!
Shallow embedding of the BadgerDB buffer manager (`src/buffer.cpp`, namespace
`badgerdb`, class `BufMgr`) and proofs about its operations.

Modelling conventions:
* `File*` pointers are file identities, modelled as `Nat`; the null pointer /
  "no owner" is `Option.none`.
* `Page` carries its embedded page number (`page_number()`) and opaque content.
* The buffer hash table (`BufHashTbl`, whose source is not in the repository)
  is modelled from the spec as a finite map `(fileId, pageNo) → frame`
  represented by an association list with unique keys; `lookup` is a plain
  option-returning search, `insert` prepends, `remove` deletes the key.
* Disk I/O is observable through `writeLog` / `deleteLog` entries (a call to
  `File::writePage` resp. `File::deletePage`), and reads come from a pure
  `disk : Nat → Nat → Option Page` parameter (`none` models a read that fails
  with an I/O error).
* The C++ `while(1)` loop of `BufMgr::allocBuf` is embedded as a fuel-indexed
  recursion `allocIter`; `none` means the fuel ran out.  `allocBuf` runs it
  with fuel `2 * numBufs`; the termination theorem shows this fuel is never
  exhausted, so the embedding coincides with the unbounded C++ loop.
-/

namespace BufferManager

/-- A disk page: its embedded page number (`Page::page_number()`) and its
content, opaque to the buffer manager. -/
structure Page where
  pageNo : Nat
  data : Nat
deriving DecidableEq, Repr

/-- One entry of `BufMgr::bufDescTable`: the per-frame descriptor
(fields of class `BufDesc` as used by `buffer.cpp`). -/
structure BufDesc where
  frameNo : Nat
  fileId : Option Nat
  pageNo : Nat
  pinCnt : Nat
  dirty : Bool
  refbit : Bool
  valid : Bool
deriving DecidableEq, Repr

/-- Modelled from the spec: `BufDesc::Clear` of the missing `buffer.h` resets a
descriptor to the free state (spec §3 lifecycle: not valid, unpinned, clean,
recency bit off, no owning file); the frame number is stable for the
manager's lifetime. -/
def BufDesc.Clear (d : BufDesc) : BufDesc :=
  { d with fileId := none, pageNo := 0, pinCnt := 0,
           dirty := false, refbit := false, valid := false }

/-- Modelled from the spec: `BufDesc::Set` of the missing `buffer.h`
initializes a descriptor for a newly loaded page (spec §4.3 miss path:
`valid = true, pinCount = 1, refBit = true, dirty = false`, owner recorded). -/
def BufDesc.Set (d : BufDesc) (fid : Nat) (p : Nat) : BufDesc :=
  { d with fileId := some fid, pageNo := p, pinCnt := 1,
           dirty := false, refbit := true, valid := true }

/-- `bufDescTable[clockHand].refbit = false` (buffer.cpp line 91): the
second-chance step of the clock scan. -/
def clearRefbit (d : BufDesc) : BufDesc :=
  { d with refbit := false }

/-- The whole observable state of a `BufMgr` instance together with the
observable effects it had on its file collaborators. -/
structure BufState where
  numBufs : Nat
  bufDescTable : List BufDesc
  bufPool : List Page
  hashTable : List ((Nat × Nat) × Nat)
  clockHand : Nat
  writeLog : List (Nat × Page)
  deleteLog : List (Nat × Nat)
deriving DecidableEq, Repr

/-- Errors thrown by the operations (the exception classes of `buffer.cpp`).
`outOfFuel` is an artifact of the fuel-indexed embedding of the `allocBuf`
loop; the termination theorem proves it is never produced. -/
inductive BufErr where
  | bufferExceeded
  | pageNotPinned
  | pagePinned
  | badBuffer
  | ioError
  | outOfFuel
deriving DecidableEq, Repr

def defaultDesc : BufDesc :=
  { frameNo := 0, fileId := none, pageNo := 0, pinCnt := 0,
    dirty := false, refbit := false, valid := false }

def defaultPage : Page := ⟨0, 0⟩

def getDesc (s : BufState) (i : Nat) : BufDesc :=
  s.bufDescTable.getD i defaultDesc

def setDesc (s : BufState) (i : Nat) (d : BufDesc) : BufState :=
  { s with bufDescTable := s.bufDescTable.set i d }

def getPage (s : BufState) (i : Nat) : Page :=
  s.bufPool.getD i defaultPage

/-- Modelled from the spec: `BufHashTbl::lookup` (source not in the
repository) — the residency query of the PageLookupIndex (spec §3), as an
option-returning search over the `(file, pageNo) → frame` map. -/
def hashLookup (s : BufState) (fid p : Nat) : Option Nat :=
  (s.hashTable.find? (fun e => decide (e.1 = (fid, p)))).map (·.2)

/-- Modelled from the spec: `BufHashTbl::remove` — deletes the index entry of
`(fid, p)` (spec §3: entries removed exactly when a descriptor is cleared). -/
def hashRemove (s : BufState) (fid p : Nat) : BufState :=
  { s with hashTable := s.hashTable.filter (fun e => !decide (e.1 = (fid, p))) }

/-- Modelled from the spec: `BufHashTbl::insert` — records a new index entry
`(fid, p) → f` (spec §3: entries created exactly when a descriptor becomes
valid; keys unique). -/
def hashInsert (s : BufState) (fid p f : Nat) : BufState :=
  { s with hashTable := ((fid, p), f) :: s.hashTable }

/-- `BufMgr::advanceClock` (buffer.cpp line 57):
`clockHand = (clockHand+1)%numBufs`. -/
def advanceClock (s : BufState) : BufState :=
  { s with clockHand := (s.clockHand + 1) % s.numBufs }

/-- `bufDescTable[i].Clear()` on the state. -/
def clearFrame (s : BufState) (i : Nat) : BufState :=
  setDesc s i (getDesc s i).Clear

/-- The effect of `allocBuf` claiming the frame under the clock hand
(buffer.cpp lines 79–102): an invalid frame is cleared and taken at once; a
valid victim is written back through its owning file when dirty, its index
entry is removed, and its descriptor is cleared. -/
def claimFrame (t : BufState) (f : Nat) : BufState :=
  let d := getDesc t f
  if d.valid = false then
    clearFrame t f
  else
    let t2 := if d.dirty = true then
        { t with writeLog := (d.fileId.getD 0, getPage t f) :: t.writeLog }
      else t
    clearFrame (hashRemove t2 (d.fileId.getD 0) d.pageNo) f

/-- The `while(1)` loop of `BufMgr::allocBuf` (buffer.cpp lines 67–104) as a
fuel-indexed iteration: advance the clock; throw `BufferExceededException`
when the pinned-encounter count reaches `numBufs`; claim an invalid frame;
skip a pinned frame counting the encounter; give a second chance to a frame
with the recency bit set; otherwise claim the victim (with writeback when
dirty).  `none` = fuel exhausted. -/
def allocIter (s : BufState) (pcount fuel : Nat) :
    Option (Except BufErr Nat × BufState) :=
  match fuel with
  | 0 => none
  | fuel + 1 =>
    let s1 := advanceClock s
    if pcount = s1.numBufs then some (.error .bufferExceeded, s1)
    else
      let d := getDesc s1 s1.clockHand
      if d.valid = false then some (.ok s1.clockHand, claimFrame s1 s1.clockHand)
      else if 0 < d.pinCnt then allocIter s1 (pcount + 1) fuel
      else if d.refbit = true then
        allocIter (setDesc s1 s1.clockHand (clearRefbit d)) pcount fuel
      else some (.ok s1.clockHand, claimFrame s1 s1.clockHand)

/-- `BufMgr::allocBuf`: the loop with fuel `2 * numBufs`; the termination
theorem shows the fuel is never exhausted, so the `.outOfFuel` default is
unreachable and this equals the unbounded C++ loop. -/
def allocBuf (s : BufState) : Except BufErr Nat × BufState :=
  (allocIter s 0 (2 * s.numBufs)).getD (.error .outOfFuel, s)

/-- `BufMgr::readPage` (buffer.cpp lines 112–130).  On a hit: set the recency
bit, increment the pin count, return the frame.  On a miss: run `allocBuf`
(its mutations persist even if a later step fails), read the page from disk
(`none` models `File::readPage` failing), install it, insert the index entry,
and `Set` the descriptor. -/
def readPage (disk : Nat → Nat → Option Page) (fid p : Nat) (s : BufState) :
    Except BufErr Nat × BufState :=
  match hashLookup s fid p with
  | some i =>
      (.ok i, setDesc s i
        { getDesc s i with refbit := true, pinCnt := (getDesc s i).pinCnt + 1 })
  | none =>
      match allocBuf s with
      | (.error e, s1) => (.error e, s1)
      | (.ok f, s1) =>
          match disk fid p with
          | none => (.error .ioError, s1)
          | some pg =>
              let s2 := { s1 with bufPool := s1.bufPool.set f pg }
              let s3 := hashInsert s2 fid p f
              (.ok f, setDesc s3 f ((getDesc s3 f).Set fid p))

/-- `BufMgr::unPinPage` (buffer.cpp lines 137–157): a lookup miss is a silent
no-op; a resident page with pin count 0 throws `PageNotPinnedException`;
otherwise the dirty flag is set when `dirty` is passed (never cleared) and
the pin count is decremented by one. -/
def unPinPage (fid p : Nat) (dirty : Bool) (s : BufState) :
    Except BufErr Unit × BufState :=
  match hashLookup s fid p with
  | none => (.ok (), s)
  | some f =>
      let d := getDesc s f
      if d.pinCnt = 0 then (.error .pageNotPinned, s)
      else (.ok (), setDesc s f
        { d with dirty := dirty || d.dirty, pinCnt := d.pinCnt - 1 })

/-- The dirty branch of the `flushFile` loop body (buffer.cpp lines 179–185):
write `bufPool[bufDescTable[i].frameNo]` back through the owning file, clear
the dirty bit, remove the index entry, clear the descriptor. -/
def flushStep (fid : Nat) (s : BufState) (i : Nat) : BufState :=
  let d := getDesc s i
  let s1 := { s with writeLog := (fid, getPage s d.frameNo) :: s.writeLog }
  let s2 := setDesc s1 i { getDesc s1 i with dirty := false }
  clearFrame (hashRemove s2 fid d.pageNo) i

/-- The body of the `for` loop of `BufMgr::flushFile` (buffer.cpp lines
168–187), iterated over frames `i, i+1, …` with `rem` frames left to scan.
For a frame owned by `file`: invalid throws `BadBufferException`, pinned
throws `PagePinnedException`, dirty runs `flushStep`; a clean frame falls
through with no action. -/
def flushLoop (fid : Nat) (s : BufState) (i rem : Nat) :
    Except BufErr Unit × BufState :=
  match rem with
  | 0 => (.ok (), s)
  | rem + 1 =>
      let d := getDesc s i
      if d.fileId = some fid then
        if d.valid = false then (.error .badBuffer, s)
        else if 0 < d.pinCnt then (.error .pagePinned, s)
        else if d.dirty = true then
          flushLoop fid (flushStep fid s i) (i + 1) rem
        else flushLoop fid s (i + 1) rem
      else flushLoop fid s (i + 1) rem

/-- `BufMgr::flushFile` (buffer.cpp lines 166–188): scan all `numBufs`
frames. -/
def flushFile (fid : Nat) (s : BufState) : Except BufErr Unit × BufState :=
  flushLoop fid s 0 s.numBufs

/-- `BufMgr::allocPage` (buffer.cpp lines 193–203).  `pg` is the fresh page
returned by `file->allocatePage()` (the file collaborator assigns its page
number).  Returns `(page number, frame)`. -/
def allocPage (fid : Nat) (pg : Page) (s : BufState) :
    Except BufErr (Nat × Nat) × BufState :=
  match allocBuf s with
  | (.error e, s1) => (.error e, s1)
  | (.ok f, s1) =>
      let s2 := { s1 with bufPool := s1.bufPool.set f pg }
      let s3 := hashInsert s2 fid pg.pageNo f
      (.ok (pg.pageNo, f), setDesc s3 f ((getDesc s3 f).Set fid pg.pageNo))

/-- `BufMgr::disposePage` (buffer.cpp lines 209–221).  If resident: clear the
descriptor, remove the index entry, and forward `File::deletePage` (the
`deleteLog` entry).  A lookup miss only prints a message: no state change and
no forwarded deletion. -/
def disposePage (fid p : Nat) (s : BufState) : Except BufErr Unit × BufState :=
  match hashLookup s fid p with
  | some f =>
      let s1 := clearFrame s f
      let s2 := hashRemove s1 fid p
      (.ok (), { s2 with deleteLog := (fid, p) :: s2.deleteLog })
  | none => (.ok (), s)

/-- The hash-table capacity computed by the constructor (buffer.cpp line 31):
`((((int)(bufs * 1.2))*2)/2)+1`.  Over the `int` range in use the `double`
product `bufs * 1.2` truncates to `⌊6·bufs/5⌋`, so the expression is embedded
over `Nat` with floor division. -/
def htsize (bufs : Nat) : Nat :=
  ((6 * bufs / 5) * 2) / 2 + 1

/-- The descriptor table built by `BufMgr::BufMgr` (buffer.cpp lines 23–27):
frame numbers `0 … bufs-1`, everything else free. -/
def initDescs (bufs : Nat) : List BufDesc :=
  (List.range bufs).map (fun i => { defaultDesc with frameNo := i })

/-- `BufMgr::BufMgr` (buffer.cpp lines 19–35): all descriptors invalid, empty
index, clock hand at the last frame. -/
def initState (bufs : Nat) : BufState :=
  { numBufs := bufs
    bufDescTable := initDescs bufs
    bufPool := List.replicate bufs defaultPage
    hashTable := []
    clockHand := bufs - 1
    writeLog := []
    deleteLog := [] }

/-! ### List helpers -/

theorem getD_set_self {α : Type} (l : List α) (i : Nat) (x d : α)
    (h : i < l.length) : (l.set i x).getD i d = x := by
  induction l generalizing i with
  | nil => simp at h
  | cons a t ih =>
      cases i with
      | zero => rfl
      | succ n => exact ih n (Nat.lt_of_succ_lt_succ h)

theorem getD_set_ne {α : Type} (l : List α) (i j : Nat) (x d : α)
    (h : i ≠ j) : (l.set i x).getD j d = l.getD j d := by
  induction l generalizing i j with
  | nil => rfl
  | cons a t ih =>
      cases i with
      | zero =>
          cases j with
          | zero => exact absurd rfl h
          | succ m => rfl
      | succ n =>
          cases j with
          | zero => rfl
          | succ m => exact ih n m (fun hh => h (by rw [hh]))

theorem getD_mem {α : Type} (l : List α) (i : Nat) (d : α)
    (h : i < l.length) : l.getD i d ∈ l := by
  induction l generalizing i with
  | nil => simp at h
  | cons a t ih =>
      cases i with
      | zero => exact List.mem_cons_self a t
      | succ n => exact List.mem_cons_of_mem a (ih n (Nat.lt_of_succ_lt_succ h))

theorem countP_set_drop {α : Type} (p : α → Bool) (l : List α) (i : Nat)
    (x d : α) (h : i < l.length) (hpi : p (l.getD i d) = true)
    (hpx : p x = false) : (l.set i x).countP p + 1 = l.countP p := by
  induction l generalizing i with
  | nil => simp at h
  | cons a t ih =>
      cases i with
      | zero =>
          have ha : (a :: t).getD 0 d = a := rfl
          rw [ha] at hpi
          simp [List.countP_cons, hpi, hpx]
      | succ n =>
          have h' := ih n (Nat.lt_of_succ_lt_succ h) hpi
          simp only [List.set, List.countP_cons]
          omega

theorem countP_lt_of_mem_false {α : Type} (p : α → Bool) (l : List α) (a : α)
    (ha : a ∈ l) (hpa : p a = false) : l.countP p < l.length := by
  induction l with
  | nil => simp at ha
  | cons b t ih =>
      rcases List.mem_cons.mp ha with h | h
      · subst h
        have hle := List.countP_le_length (l := t) (p := p)
        simp [List.countP_cons, hpa]
        omega
      · have := ih h
        simp only [List.countP_cons, List.length_cons]
        by_cases hb : p b = true <;> simp [hb] <;> omega

/-! ### Basic state lemmas -/

@[simp] theorem getDesc_advanceClock (s : BufState) (i : Nat) :
    getDesc (advanceClock s) i = getDesc s i := rfl

@[simp] theorem advanceClock_numBufs (s : BufState) :
    (advanceClock s).numBufs = s.numBufs := rfl

@[simp] theorem advanceClock_table (s : BufState) :
    (advanceClock s).bufDescTable = s.bufDescTable := rfl

@[simp] theorem setDesc_numBufs (s : BufState) (i : Nat) (d : BufDesc) :
    (setDesc s i d).numBufs = s.numBufs := rfl

@[simp] theorem setDesc_len (s : BufState) (i : Nat) (d : BufDesc) :
    (setDesc s i d).bufDescTable.length = s.bufDescTable.length := by
  simp [setDesc]

@[simp] theorem setDesc_pool (s : BufState) (i : Nat) (d : BufDesc) :
    (setDesc s i d).bufPool = s.bufPool := rfl

@[simp] theorem setDesc_hash (s : BufState) (i : Nat) (d : BufDesc) :
    (setDesc s i d).hashTable = s.hashTable := rfl

@[simp] theorem setDesc_wlog (s : BufState) (i : Nat) (d : BufDesc) :
    (setDesc s i d).writeLog = s.writeLog := rfl

@[simp] theorem setDesc_dlog (s : BufState) (i : Nat) (d : BufDesc) :
    (setDesc s i d).deleteLog = s.deleteLog := rfl

theorem setDesc_of_ge (s : BufState) (i : Nat) (d : BufDesc)
    (h : s.bufDescTable.length ≤ i) : setDesc s i d = s := by
  unfold setDesc
  rw [List.set_eq_of_length_le h]

theorem getDesc_setDesc_self (s : BufState) (i : Nat) (d : BufDesc)
    (h : i < s.bufDescTable.length) : getDesc (setDesc s i d) i = d :=
  getD_set_self _ _ _ _ h

theorem getDesc_setDesc_ne (s : BufState) (i j : Nat) (d : BufDesc)
    (h : i ≠ j) : getDesc (setDesc s i d) j = getDesc s j :=
  getD_set_ne _ _ _ _ _ h

@[simp] theorem getDesc_hashRemove (s : BufState) (fid p : Nat) (i : Nat) :
    getDesc (hashRemove s fid p) i = getDesc s i := rfl

@[simp] theorem getPage_hashRemove (s : BufState) (fid p : Nat) (i : Nat) :
    getPage (hashRemove s fid p) i = getPage s i := rfl

@[simp] theorem hashRemove_numBufs (s : BufState) (fid p : Nat) :
    (hashRemove s fid p).numBufs = s.numBufs := rfl

@[simp] theorem clearFrame_numBufs (s : BufState) (i : Nat) :
    (clearFrame s i).numBufs = s.numBufs := rfl

@[simp] theorem clearFrame_len (s : BufState) (i : Nat) :
    (clearFrame s i).bufDescTable.length = s.bufDescTable.length := by
  simp [clearFrame]

@[simp] theorem clearFrame_pool (s : BufState) (i : Nat) :
    (clearFrame s i).bufPool = s.bufPool := rfl

@[simp] theorem clearFrame_hash (s : BufState) (i : Nat) :
    (clearFrame s i).hashTable = s.hashTable := rfl

@[simp] theorem clearFrame_wlog (s : BufState) (i : Nat) :
    (clearFrame s i).writeLog = s.writeLog := rfl

@[simp] theorem clearFrame_dlog (s : BufState) (i : Nat) :
    (clearFrame s i).deleteLog = s.deleteLog := rfl

/-- The descriptor fields an `allocBuf` scan step cannot change (everything
except the recency bit). -/
def descCore (d : BufDesc) : Nat × Option Nat × Nat × Nat × Bool × Bool :=
  (d.frameNo, d.fileId, d.pageNo, d.pinCnt, d.dirty, d.valid)

theorem descCore_eq_iff (d e : BufDesc) :
    descCore d = descCore e ↔
      d.frameNo = e.frameNo ∧ d.fileId = e.fileId ∧ d.pageNo = e.pageNo ∧
      d.pinCnt = e.pinCnt ∧ d.dirty = e.dirty ∧ d.valid = e.valid := by
  simp [descCore]

/-- `t` equals `s` up to recency bits and the clock hand: what the
continue-steps of the `allocBuf` clock scan may change. -/
structure ScanEq (s t : BufState) : Prop where
  nb : t.numBufs = s.numBufs
  len : t.bufDescTable.length = s.bufDescTable.length
  pool : t.bufPool = s.bufPool
  hash : t.hashTable = s.hashTable
  wlog : t.writeLog = s.writeLog
  dlog : t.deleteLog = s.deleteLog
  core : ∀ j, descCore (getDesc t j) = descCore (getDesc s j)

theorem ScanEq.refl (s : BufState) : ScanEq s s :=
  ⟨rfl, rfl, rfl, rfl, rfl, rfl, fun _ => rfl⟩

theorem ScanEq.trans {s t u : BufState} (h1 : ScanEq s t) (h2 : ScanEq t u) :
    ScanEq s u :=
  ⟨h2.nb.trans h1.nb, h2.len.trans h1.len, h2.pool.trans h1.pool,
   h2.hash.trans h1.hash, h2.wlog.trans h1.wlog, h2.dlog.trans h1.dlog,
   fun j => (h2.core j).trans (h1.core j)⟩

theorem ScanEq.advance (s : BufState) : ScanEq s (advanceClock s) :=
  ⟨rfl, rfl, rfl, rfl, rfl, rfl, fun _ => rfl⟩

theorem ScanEq.refbitClear (s : BufState) (i : Nat) :
    ScanEq s (setDesc s i (clearRefbit (getDesc s i))) := by
  refine ⟨rfl, by simp, rfl, rfl, rfl, rfl, fun j => ?_⟩
  by_cases hij : i = j
  · subst hij
    by_cases hlen : i < s.bufDescTable.length
    · rw [getDesc_setDesc_self s i _ hlen]
      simp [descCore, clearRefbit]
    · rw [setDesc_of_ge s i _ (Nat.le_of_not_lt hlen)]
  · rw [getDesc_setDesc_ne s i j _ hij]

/-! ### Structure of an `allocBuf` run -/

theorem advance_clockHand_lt (s : BufState) (h : 0 < s.numBufs) :
    (advanceClock s).clockHand < s.numBufs :=
  Nat.mod_lt _ h

/-- A successful `allocBuf` run is: continue-steps (which only touch recency
bits and the clock hand) until a state `t`, then claiming the frame `f` under
the hand, which at that moment is invalid or unpinned. -/
theorem allocIter_ok_spec (fuel : Nat) :
    ∀ s p f s', allocIter s p fuel = some (.ok f, s') →
      ∃ t, ScanEq s t ∧ (0 < t.numBufs → f < t.numBufs) ∧
        ((getDesc t f).valid = false ∨ (getDesc t f).pinCnt = 0) ∧
        s' = claimFrame t f := by
  induction fuel with
  | zero =>
      intro s p f s' h
      simp [allocIter] at h
  | succ n ih =>
      intro s p f s' h
      simp only [allocIter] at h
      split at h
      · simp at h
      · split at h
        · rw [Option.some_inj, Prod.mk.injEq, Except.ok.injEq] at h
          obtain ⟨hf, hs⟩ := h
          subst hf
          refine ⟨advanceClock s, ScanEq.advance s, ?_, ?_, hs.symm⟩
          · intro h0
            exact advance_clockHand_lt s ((ScanEq.advance s).nb ▸ h0)
          · left
            assumption
        · split at h
          · obtain ⟨t, ht, hlt, hfr, hcl⟩ := ih _ _ _ _ h
            exact ⟨t, (ScanEq.advance s).trans ht, hlt, hfr, hcl⟩
          · split at h
            · obtain ⟨t, ht, hlt, hfr, hcl⟩ := ih _ _ _ _ h
              exact ⟨t, ((ScanEq.advance s).trans
                (ScanEq.refbitClear (advanceClock s) _)).trans ht,
                hlt, hfr, hcl⟩
            · rw [Option.some_inj, Prod.mk.injEq, Except.ok.injEq] at h
              obtain ⟨hf, hs⟩ := h
              subst hf
              refine ⟨advanceClock s, ScanEq.advance s, ?_, ?_, hs.symm⟩
              · intro h0
                exact advance_clockHand_lt s ((ScanEq.advance s).nb ▸ h0)
              · right
                omega

/-- A failing `allocBuf` run throws `BufferExceededException` and has only
touched recency bits and the clock hand. -/
theorem allocIter_err_spec (fuel : Nat) :
    ∀ s p e s', allocIter s p fuel = some (.error e, s') →
      e = .bufferExceeded ∧ ScanEq s s' := by
  induction fuel with
  | zero =>
      intro s p e s' h
      simp [allocIter] at h
  | succ n ih =>
      intro s p e s' h
      simp only [allocIter] at h
      split at h
      · rw [Option.some_inj, Prod.mk.injEq, Except.error.injEq] at h
        obtain ⟨he, hs⟩ := h
        exact ⟨he.symm, hs ▸ ScanEq.advance s⟩
      · split at h
        · simp at h
        · split at h
          · obtain ⟨he, hs⟩ := ih _ _ _ _ h
            exact ⟨he, (ScanEq.advance s).trans hs⟩
          · split at h
            · obtain ⟨he, hs⟩ := ih _ _ _ _ h
              exact ⟨he, ((ScanEq.advance s).trans
                (ScanEq.refbitClear (advanceClock s) _)).trans hs⟩
            · simp at h

/-! ### Termination of the clock scan -/

/-- Frames on which the scan can spend a recency-bit-clearing step. -/
def scanPred (d : BufDesc) : Bool :=
  d.valid && (d.pinCnt == 0) && d.refbit

/-- Number of valid, unpinned frames whose recency bit is set. -/
def Rcount (s : BufState) : Nat :=
  s.bufDescTable.countP scanPred

theorem allocIter_total (fuel : Nat) :
    ∀ s p, s.bufDescTable.length = s.numBufs → p ≤ s.numBufs →
      s.numBufs - p + Rcount s + 1 ≤ fuel →
      (allocIter s p fuel).isSome = true := by
  induction fuel with
  | zero =>
      intro s p _ _ hfuel
      omega
  | succ n ih =>
      intro s p hlen hp hfuel
      simp only [allocIter]
      split
      · rfl
      · split
        · rfl
        · rename_i hne hvalid
          have hpn : p < s.numBufs := by
            simp only [advanceClock_numBufs] at hne
            omega
          have h0 : 0 < s.numBufs := by omega
          split
          · refine ih (advanceClock s) (p + 1) hlen (by simpa using hpn) ?_
            show s.numBufs - (p + 1) + Rcount s + 1 ≤ n
            omega
          · split
            · rename_i hnopin href
              have hh : (advanceClock s).clockHand < s.bufDescTable.length := by
                rw [hlen]
                exact advance_clockHand_lt s h0
              have hv : (getDesc s (advanceClock s).clockHand).valid = true := by
                simpa using hvalid
              have hz : (getDesc s (advanceClock s).clockHand).pinCnt = 0 := by
                simp only [getDesc_advanceClock] at hnopin
                omega
              have hr : (getDesc s (advanceClock s).clockHand).refbit = true := by
                simpa using href
              have hscan : scanPred (getDesc s (advanceClock s).clockHand)
                  = true := by
                simp [scanPred, hv, hz, hr]
              have hdrop : Rcount (setDesc (advanceClock s)
                  (advanceClock s).clockHand
                  (clearRefbit (getDesc (advanceClock s)
                    (advanceClock s).clockHand))) + 1 = Rcount s :=
                countP_set_drop scanPred s.bufDescTable
                  (advanceClock s).clockHand
                  (clearRefbit (getDesc (advanceClock s)
                    (advanceClock s).clockHand)) defaultDesc hh hscan
                  (by simp [scanPred, clearRefbit])
              refine ih _ p (by simp [hlen]) (by simpa using Nat.le_of_lt hpn) ?_
              simp only [setDesc_numBufs, advanceClock_numBufs]
              omega
            · rfl

theorem allocIter_total_nopin (fuel : Nat) :
    ∀ s p, s.bufDescTable.length = s.numBufs → p < s.numBufs →
      (∀ d ∈ s.bufDescTable, d.valid = true → d.pinCnt = 0) →
      Rcount s + 1 ≤ fuel → (allocIter s p fuel).isSome = true := by
  induction fuel with
  | zero =>
      intro s p _ _ _ hfuel
      omega
  | succ n ih =>
      intro s p hlen hp hnp hfuel
      simp only [allocIter]
      split
      · rfl
      · split
        · rfl
        · rename_i hne hvalid
          have h0 : 0 < s.numBufs := by omega
          have hh : (advanceClock s).clockHand < s.bufDescTable.length := by
            rw [hlen]
            exact advance_clockHand_lt s h0
          have hv : (getDesc s (advanceClock s).clockHand).valid = true := by
            simpa using hvalid
          have hmem : getDesc s (advanceClock s).clockHand ∈ s.bufDescTable :=
            getD_mem s.bufDescTable (advanceClock s).clockHand defaultDesc hh
          have hpin : (getDesc s (advanceClock s).clockHand).pinCnt = 0 :=
            hnp _ hmem hv
          split
          · rename_i hcond
            simp only [getDesc_advanceClock] at hcond
            omega
          · split
            · rename_i hnopin href
              have hr : (getDesc s (advanceClock s).clockHand).refbit
                  = true := by
                simpa using href
              have hscan : scanPred (getDesc s (advanceClock s).clockHand)
                  = true := by
                simp [scanPred, hv, hpin, hr]
              have hdrop : Rcount (setDesc (advanceClock s)
                  (advanceClock s).clockHand
                  (clearRefbit (getDesc (advanceClock s)
                    (advanceClock s).clockHand))) + 1 = Rcount s :=
                countP_set_drop scanPred s.bufDescTable
                  (advanceClock s).clockHand
                  (clearRefbit (getDesc (advanceClock s)
                    (advanceClock s).clockHand)) defaultDesc hh hscan
                  (by simp [scanPred, clearRefbit])
              refine ih _ p (by simp [hlen]) (by simpa using hp) ?_ (by omega)
              intro d hd hdv
              rcases List.mem_or_eq_of_mem_set hd with hd' | hd'
              · exact hnp d hd' hdv
              · subst hd'
                exact hpin
            · rfl

/-- `allocBuf` settles (returns a frame or throws) within `2 * numBufs` clock
steps. -/
theorem allocIter_two_sweeps (s : BufState)
    (hlen : s.bufDescTable.length = s.numBufs) (h0 : 0 < s.numBufs) :
    (allocIter s 0 (2 * s.numBufs)).isSome = true := by
  by_cases hp : ∃ d ∈ s.bufDescTable, d.valid = true ∧ 0 < d.pinCnt
  · obtain ⟨d0, hd0, hdv, hdp⟩ := hp
    have hb : (d0.pinCnt == 0) = false := by
      rw [beq_eq_false_iff_ne]
      omega
    have hs0 : scanPred d0 = false := by simp [scanPred, hb]
    have hR : Rcount s < s.bufDescTable.length :=
      countP_lt_of_mem_false scanPred s.bufDescTable d0 hd0 hs0
    exact allocIter_total _ s 0 hlen (by omega) (by omega)
  · push_neg at hp
    have hR : Rcount s ≤ s.bufDescTable.length :=
      List.countP_le_length scanPred
    exact allocIter_total_nopin _ s 0 hlen h0
      (fun d hd hdv => by
        have := hp d hd hdv
        omega)
      (by omega)

/-! ### Hash-table lemmas -/

theorem hashLookup_eq_none (s : BufState) (fid p : Nat) :
    hashLookup s fid p = none ↔ ∀ e ∈ s.hashTable, e.1 ≠ (fid, p) := by
  simp [hashLookup, List.find?_eq_none]

theorem hashLookup_mem (s : BufState) (fid p f : Nat)
    (h : hashLookup s fid p = some f) : ((fid, p), f) ∈ s.hashTable := by
  unfold hashLookup at h
  cases hfind : s.hashTable.find? (fun e => decide (e.1 = (fid, p))) with
  | none =>
      rw [hfind] at h
      simp at h
  | some e =>
      rw [hfind] at h
      simp only [Option.map_some', Option.some_inj] at h
      have hmem := List.mem_of_find?_eq_some hfind
      have hkey : e.1 = (fid, p) :=
        of_decide_eq_true (by simpa using List.find?_some hfind)
      obtain ⟨k, v⟩ := e
      simp only at hkey h
      rw [← hkey, ← h]
      exact hmem

theorem mem_hashRemove (s : BufState) (fid p : Nat) (e : (Nat × Nat) × Nat) :
    e ∈ (hashRemove s fid p).hashTable ↔ e ∈ s.hashTable ∧ e.1 ≠ (fid, p) := by
  simp [hashRemove, List.mem_filter]

theorem pairwise_key_unique {l : List ((Nat × Nat) × Nat)}
    (hp : l.Pairwise (fun a b => a.1 ≠ b.1)) :
    ∀ e1 ∈ l, ∀ e2 ∈ l, e1.1 = e2.1 → e1 = e2 := by
  induction l with
  | nil => intro e1 h1; simp at h1
  | cons a t ih =>
      rw [List.pairwise_cons] at hp
      intro e1 h1 e2 h2 hk
      rcases List.mem_cons.mp h1 with h1' | h1' <;>
        rcases List.mem_cons.mp h2 with h2' | h2'
      · rw [h1', h2']
      · subst h1'
        exact absurd hk (hp.1 e2 h2')
      · subst h2'
        exact absurd hk.symm (hp.1 e1 h1')
      · exact ih hp.2 e1 h1' e2 h2' hk

/-! ### The residency invariant (descriptor table and index agree) -/

/-- One index entry is consistent with the descriptor table: it points to a
frame inside the pool whose descriptor is valid for exactly this key. -/
def entryOk (s : BufState) (e : (Nat × Nat) × Nat) : Prop :=
  e.2 < s.numBufs ∧ (getDesc s e.2).valid = true ∧
    (getDesc s e.2).fileId = some e.1.1 ∧ (getDesc s e.2).pageNo = e.1.2

instance (s : BufState) (e : (Nat × Nat) × Nat) : Decidable (entryOk s e) := by
  unfold entryOk
  infer_instance

/-- Residency invariant: the descriptor table and the lookup index agree.
Index keys are pairwise distinct; every entry points to a valid matching
descriptor; every valid descriptor has its entry in the index. -/
def Inv (s : BufState) : Prop :=
  s.bufDescTable.length = s.numBufs ∧
  s.hashTable.Pairwise (fun a b => a.1 ≠ b.1) ∧
  (∀ e ∈ s.hashTable, entryOk s e) ∧
  (∀ i ∈ List.range s.numBufs, (getDesc s i).valid = true →
    (getDesc s i).fileId ≠ none ∧
    (((getDesc s i).fileId.getD 0, (getDesc s i).pageNo), i) ∈ s.hashTable)

instance (s : BufState) : Decidable (Inv s) := by
  unfold Inv
  infer_instance

theorem Inv.valid_lt {s : BufState} (h : Inv s) (i : Nat)
    (hv : (getDesc s i).valid = true) : i < s.numBufs := by
  by_contra hge
  rw [← h.1] at hge
  have : getDesc s i = defaultDesc :=
    List.getD_eq_default _ _ (Nat.le_of_not_lt hge)
  rw [this] at hv
  simp [defaultDesc] at hv

/-- At-most-one residency: two valid frames with the same owner and page
identity are the same frame. -/
theorem Inv.at_most_one {s : BufState} (h : Inv s) (i j : Nat)
    (hvi : (getDesc s i).valid = true) (hvj : (getDesc s j).valid = true)
    (hf : (getDesc s i).fileId = (getDesc s j).fileId)
    (hp : (getDesc s i).pageNo = (getDesc s j).pageNo) : i = j := by
  have hi := h.2.2.2 i (List.mem_range.mpr (h.valid_lt i hvi)) hvi
  have hj := h.2.2.2 j (List.mem_range.mpr (h.valid_lt j hvj)) hvj
  have hkey : (((getDesc s i).fileId.getD 0, (getDesc s i).pageNo) : Nat × Nat)
      = ((getDesc s j).fileId.getD 0, (getDesc s j).pageNo) := by
    rw [hf, hp]
  have := pairwise_key_unique h.2.1 _ hi.2 _ hj.2 (by simpa using hkey)
  simpa using congrArg Prod.snd this

/-- `Inv` only depends on `numBufs`, the descriptor table and the hash table,
so it transports along `ScanEq` (which also allows recency bits to differ). -/
theorem Inv_ScanEq {s t : BufState} (h : Inv s) (hst : ScanEq s t) : Inv t := by
  obtain ⟨hlen, hpw, hok, hval⟩ := h
  refine ⟨by rw [hst.len, hst.nb, hlen], by rw [hst.hash]; exact hpw, ?_, ?_⟩
  · intro e he
    rw [hst.hash] at he
    obtain ⟨h1, h2, h3, h4⟩ := hok e he
    have hc := (descCore_eq_iff _ _).mp (hst.core e.2)
    exact ⟨hst.nb ▸ h1, hc.2.2.2.2.2 ▸ h2, hc.2.1 ▸ h3, hc.2.2.1 ▸ h4⟩
  · intro i hi hv
    rw [hst.nb] at hi
    have hc := (descCore_eq_iff _ _).mp (hst.core i)
    have hv' : (getDesc s i).valid = true := hc.2.2.2.2.2 ▸ hv
    obtain ⟨h1, h2⟩ := hval i hi hv'
    rw [hst.hash, hc.2.1, hc.2.2.1]
    exact ⟨hc.2.1 ▸ h1, h2⟩

/-- Changing a descriptor without touching its residency fields (valid,
owner, page identity) preserves the invariant. -/
theorem Inv_setDesc_sameRes (s : BufState) (i : Nat) (d' : BufDesc)
    (hval : d'.valid = (getDesc s i).valid)
    (hfid : d'.fileId = (getDesc s i).fileId)
    (hpn : d'.pageNo = (getDesc s i).pageNo)
    (h : Inv s) : Inv (setDesc s i d') := by
  by_cases hlt : i < s.bufDescTable.length
  · obtain ⟨hlen, hpw, hok, hv⟩ := h
    have hget : ∀ j, getDesc (setDesc s i d') j = getDesc s j ∨
        (j = i ∧ getDesc (setDesc s i d') j = d') := by
      intro j
      by_cases hij : i = j
      · subst hij
        exact Or.inr ⟨rfl, getDesc_setDesc_self s i d' hlt⟩
      · exact Or.inl (getDesc_setDesc_ne s i j d' hij)
    refine ⟨by simp [hlen], by simpa using hpw, ?_, ?_⟩
    · intro e he
      simp only [setDesc_hash] at he
      obtain ⟨h1, h2, h3, h4⟩ := hok e he
      rcases hget e.2 with hg | ⟨hje, hg⟩
      · unfold entryOk
        rw [hg]
        simp only [setDesc_numBufs]
        exact ⟨h1, h2, h3, h4⟩
      · subst hje
        unfold entryOk
        rw [hg, hval, hfid, hpn]
        simp only [setDesc_numBufs]
        exact ⟨h1, h2, h3, h4⟩
    · intro j hj hvj
      simp only [setDesc_numBufs] at hj
      simp only [setDesc_hash]
      rcases hget j with hg | ⟨hje, hg⟩
      · rw [hg] at hvj ⊢
        exact hv j hj hvj
      · subst hje
        rw [hg] at hvj ⊢
        rw [hval] at hvj
        rw [hfid, hpn]
        exact hv j hj hvj
  · rw [setDesc_of_ge s i d' (Nat.le_of_not_lt hlt)]
    exact h

/-- Clearing an invalid frame preserves the invariant. -/
theorem Inv_clearFrame_invalid (s : BufState) (i : Nat)
    (hinv : (getDesc s i).valid = false) (h : Inv s) : Inv (clearFrame s i) := by
  by_cases hlt : i < s.bufDescTable.length
  · obtain ⟨hlen, hpw, hok, hv⟩ := h
    have hself : getDesc (clearFrame s i) i = (getDesc s i).Clear :=
      getDesc_setDesc_self s i _ hlt
    refine ⟨by simp [hlen], by simpa using hpw, ?_, ?_⟩
    · intro e he
      simp only [clearFrame_hash] at he
      obtain ⟨h1, h2, h3, h4⟩ := hok e he
      have hne : e.2 ≠ i := by
        intro hei
        rw [hei] at h2
        rw [h2] at hinv
        cases hinv
      have hg : getDesc (clearFrame s i) e.2 = getDesc s e.2 :=
        getDesc_setDesc_ne s i e.2 _ (fun hx => hne hx.symm)
      unfold entryOk
      rw [hg]
      simp only [clearFrame_numBufs]
      exact ⟨h1, h2, h3, h4⟩
    · intro j hj hvj
      simp only [clearFrame_numBufs] at hj
      simp only [clearFrame_hash]
      by_cases hij : i = j
      · subst hij
        rw [hself] at hvj
        simp [BufDesc.Clear] at hvj
      · have hg : getDesc (clearFrame s i) j = getDesc s j :=
          getDesc_setDesc_ne s i j _ hij
        rw [hg] at hvj ⊢
        exact hv j hj hvj
  · unfold clearFrame
    rw [setDesc_of_ge s i _ (Nat.le_of_not_lt hlt)]
    exact h

/-- Evicting a valid frame — removing its index entry, then clearing its
descriptor — preserves the invariant. -/
theorem Inv_clear_remove (s : BufState) (i : Nat)
    (hv : (getDesc s i).valid = true) (h : Inv s) :
    Inv (clearFrame
      (hashRemove s ((getDesc s i).fileId.getD 0) (getDesc s i).pageNo) i) := by
  obtain ⟨hlen, hpw, hok, hval⟩ := h
  have hi : i < s.numBufs := Inv.valid_lt ⟨hlen, hpw, hok, hval⟩ i hv
  have hlt : i < s.bufDescTable.length := by rw [hlen]; exact hi
  obtain ⟨hfid_ne, hentry⟩ := hval i (List.mem_range.mpr hi) hv
  set key : Nat × Nat := ((getDesc s i).fileId.getD 0, (getDesc s i).pageNo)
    with hkey
  set u : BufState := clearFrame (hashRemove s key.1 key.2) i with hu
  have hhash : u.hashTable =
      s.hashTable.filter (fun e => !decide (e.1 = key)) := rfl
  have hget : ∀ j, j ≠ i → getDesc u j = getDesc s j := by
    intro j hj
    have : getDesc u j =
        getDesc (hashRemove s key.1 key.2) j :=
      getDesc_setDesc_ne _ i j _ (fun hx => hj hx.symm)
    rw [this, getDesc_hashRemove]
  have hgeti : getDesc u i = (getDesc s i).Clear := by
    have h1 : getDesc u i = (getDesc (hashRemove s key.1 key.2) i).Clear := by
      refine getDesc_setDesc_self _ i _ ?_
      simpa [hashRemove] using hlt
    rw [h1]
    rfl
  refine ⟨by simpa [hu, hashRemove] using hlen, ?_, ?_, ?_⟩
  · rw [hhash]
    exact List.Pairwise.sublist (List.filter_sublist _) hpw
  · intro e he
    rw [hhash, List.mem_filter] at he
    obtain ⟨hmem, hne⟩ := he
    have hnekey : e.1 ≠ key := by
      intro hx
      rw [hx] at hne
      simp at hne
    obtain ⟨h1, h2, h3, h4⟩ := hok e hmem
    have hei : e.2 ≠ i := by
      intro hei
      apply hnekey
      rw [hkey]
      rw [hei] at h3 h4
      rw [h3, h4]
      simp
    unfold entryOk
    rw [show u.numBufs = s.numBufs from rfl]
    rw [hget e.2 hei]
    exact ⟨h1, h2, h3, h4⟩
  · intro j hj hvj
    rw [show u.numBufs = s.numBufs from rfl] at hj
    by_cases hij : j = i
    · subst hij
      rw [hgeti] at hvj
      simp [BufDesc.Clear] at hvj
    · rw [hget j hij] at hvj ⊢
      obtain ⟨h1, h2⟩ := hval j hj hvj
      refine ⟨h1, ?_⟩
      rw [hhash, List.mem_filter]
      refine ⟨h2, ?_⟩
      have hjkey : (((getDesc s j).fileId.getD 0, (getDesc s j).pageNo)
          : Nat × Nat) ≠ key := by
        intro hx
        apply hij
        have := pairwise_key_unique hpw _ h2 _ hentry (by rw [hx, hkey])
        simpa using congrArg Prod.snd this
      simpa using hjkey

/-! ### `claimFrame` and `allocBuf` facts -/

theorem claimFrame_numBufs (t : BufState) (f : Nat) :
    (claimFrame t f).numBufs = t.numBufs := by
  simp only [claimFrame]
  split
  · rfl
  · split
    · rfl
    · rfl

theorem claimFrame_len (t : BufState) (f : Nat) :
    (claimFrame t f).bufDescTable.length = t.bufDescTable.length := by
  simp only [claimFrame]
  split
  · simp
  · split
    · simp [hashRemove]
    · simp [hashRemove]

theorem claimFrame_pool (t : BufState) (f : Nat) :
    (claimFrame t f).bufPool = t.bufPool := by
  simp only [claimFrame]
  split
  · rfl
  · split
    · rfl
    · rfl

theorem claimFrame_dlog (t : BufState) (f : Nat) :
    (claimFrame t f).deleteLog = t.deleteLog := by
  simp only [claimFrame]
  split
  · rfl
  · split
    · rfl
    · rfl

theorem claimFrame_getDesc_self (t : BufState) (f : Nat)
    (hlt : f < t.bufDescTable.length) :
    getDesc (claimFrame t f) f = (getDesc t f).Clear := by
  simp only [claimFrame]
  split
  · exact getDesc_setDesc_self t f _ hlt
  · split
    · exact getDesc_setDesc_self _ f _ (by simpa [hashRemove] using hlt)
    · exact getDesc_setDesc_self _ f _ (by simpa [hashRemove] using hlt)

theorem claimFrame_hash_subset (t : BufState) (f : Nat) :
    ∀ e ∈ (claimFrame t f).hashTable, e ∈ t.hashTable := by
  intro e he
  simp only [claimFrame] at he
  split at he
  · simpa using he
  · rw [clearFrame_hash] at he
    have : e ∈ (hashRemove (if (getDesc t f).dirty = true then
        { t with writeLog := ((getDesc t f).fileId.getD 0, getPage t f)
          :: t.writeLog } else t)
        ((getDesc t f).fileId.getD 0) (getDesc t f).pageNo).hashTable := he
    rw [mem_hashRemove] at this
    have h1 := this.1
    split at h1
    · exact h1
    · exact h1

theorem Inv_claimFrame (t : BufState) (f : Nat) (h : Inv t) :
    Inv (claimFrame t f) := by
  simp only [claimFrame]
  split
  · rename_i hinv
    exact Inv_clearFrame_invalid t f hinv h
  · rename_i hval
    have hv : (getDesc t f).valid = true := by
      simpa using hval
    split
    · rename_i hdirty
      have hw : Inv { t with writeLog :=
          ((getDesc t f).fileId.getD 0, getPage t f) :: t.writeLog } := h
      exact Inv_clear_remove _ f hv hw
    · exact Inv_clear_remove t f hv h

theorem Inv_allocBuf (s : BufState) (h : Inv s) : Inv (allocBuf s).2 := by
  unfold allocBuf
  cases ha : allocIter s 0 (2 * s.numBufs) with
  | none => exact h
  | some r =>
      obtain ⟨res, s1⟩ := r
      cases res with
      | ok f =>
          obtain ⟨t, hst, _, _, hcl⟩ := allocIter_ok_spec _ s 0 f s1 ha
          show Inv s1
          rw [hcl]
          exact Inv_claimFrame t f (Inv_ScanEq h hst)
      | error e =>
          obtain ⟨_, hst⟩ := allocIter_err_spec _ s 0 e s1 ha
          exact Inv_ScanEq h hst

theorem allocBuf_ok_iter (s : BufState) (f : Nat) (s1 : BufState)
    (h : allocBuf s = (.ok f, s1)) :
    allocIter s 0 (2 * s.numBufs) = some (.ok f, s1) := by
  unfold allocBuf at h
  cases ha : allocIter s 0 (2 * s.numBufs) with
  | none =>
      rw [ha] at h
      simp at h
  | some r =>
      rw [ha] at h
      simpa using h

theorem allocBuf_ok_pos (s : BufState) (f : Nat) (s1 : BufState)
    (h : allocBuf s = (.ok f, s1)) : 0 < s.numBufs := by
  by_contra h0
  have hz : s.numBufs = 0 := by omega
  have := allocBuf_ok_iter s f s1 h
  rw [hz] at this
  simp [allocIter] at this

/-- The frame returned by a successful `allocBuf` is in range, its descriptor
is cleared in the result state, the hash table of the result is contained in
the original one, and the pool and delete log are untouched. -/
theorem allocBuf_ok_frame (s : BufState) (f : Nat) (s1 : BufState)
    (hlen : s.bufDescTable.length = s.numBufs)
    (h : allocBuf s = (.ok f, s1)) :
    f < s.numBufs ∧ s1.numBufs = s.numBufs ∧
      s1.bufDescTable.length = s.numBufs ∧
      getDesc s1 f = (getDesc s f).Clear ∧
      s1.bufPool = s.bufPool ∧ s1.deleteLog = s.deleteLog ∧
      (∀ e ∈ s1.hashTable, e ∈ s.hashTable) := by
  have hit := allocBuf_ok_iter s f s1 h
  have h0 := allocBuf_ok_pos s f s1 h
  obtain ⟨t, hst, hlt, _, hcl⟩ := allocIter_ok_spec _ s 0 f s1 hit
  have hf : f < s.numBufs := hst.nb ▸ hlt (hst.nb ▸ h0)
  have htlen : t.bufDescTable.length = t.numBufs := by
    rw [hst.len, hst.nb, hlen]
  have hflt : f < t.bufDescTable.length := by
    rw [htlen, hst.nb]
    exact hf
  refine ⟨hf, ?_, ?_, ?_, ?_, ?_, ?_⟩
  · rw [hcl, claimFrame_numBufs, hst.nb]
  · rw [hcl, claimFrame_len, hst.len, hlen]
  · rw [hcl, claimFrame_getDesc_self t f hflt]
    have hc := (descCore_eq_iff _ _).mp (hst.core f)
    unfold BufDesc.Clear
    rw [hc.1]
  · rw [hcl, claimFrame_pool, hst.pool]
  · rw [hcl, claimFrame_dlog, hst.dlog]
  · intro e he
    rw [hcl] at he
    have := claimFrame_hash_subset t f e he
    rw [hst.hash] at this
    exact this

/-! ### Invariant preservation by each operation -/

/-- Installing a fresh page into a claimed (invalid) frame — pool write, index
insert, descriptor `Set` — preserves the invariant. -/
theorem Inv_load (s : BufState) (fid p f : Nat) (pool : List Page)
    (hf : f < s.numBufs) (hinv : (getDesc s f).valid = false)
    (hfresh : ∀ e ∈ s.hashTable, e.1 ≠ (fid, p)) (h : Inv s) :
    Inv (setDesc (hashInsert { s with bufPool := pool } fid p f) f
      ((getDesc (hashInsert { s with bufPool := pool } fid p f) f).Set fid p)) := by
  obtain ⟨hlen, hpw, hok, hval⟩ := h
  have hflt : f < s.bufDescTable.length := by rw [hlen]; exact hf
  set w : BufState := hashInsert { s with bufPool := pool } fid p f with hw
  have hwdesc : ∀ j, getDesc w j = getDesc s j := fun _ => rfl
  have hwhash : w.hashTable = ((fid, p), f) :: s.hashTable := rfl
  set u : BufState := setDesc w f ((getDesc w f).Set fid p) with hu
  have hudesc_self : getDesc u f = (getDesc s f).Set fid p :=
    getDesc_setDesc_self w f _ hflt
  have hudesc_ne : ∀ j, j ≠ f → getDesc u j = getDesc s j := by
    intro j hj
    rw [hu, getDesc_setDesc_ne w f j _ (fun hx => hj hx.symm), hwdesc]
  have huhash : u.hashTable = ((fid, p), f) :: s.hashTable := rfl
  have hunb : u.numBufs = s.numBufs := rfl
  refine ⟨?_, ?_, ?_, ?_⟩
  · show (s.bufDescTable.set f _).length = s.numBufs
    simp [hlen]
  · rw [huhash, List.pairwise_cons]
    exact ⟨fun e he => fun hx => hfresh e he hx.symm, hpw⟩
  · intro e he
    rw [huhash, List.mem_cons] at he
    rcases he with he | he
    · subst he
      unfold entryOk
      rw [hunb, hudesc_self]
      exact ⟨hf, rfl, rfl, rfl⟩
    · obtain ⟨h1, h2, h3, h4⟩ := hok e he
      have hef : e.2 ≠ f := by
        intro hx
        rw [hx] at h2
        rw [h2] at hinv
        cases hinv
      unfold entryOk
      rw [hunb, hudesc_ne e.2 hef]
      exact ⟨h1, h2, h3, h4⟩
  · intro j hj hvj
    rw [hunb] at hj
    by_cases hjf : j = f
    · subst hjf
      rw [hudesc_self] at hvj ⊢
      refine ⟨by simp [BufDesc.Set], ?_⟩
      rw [huhash]
      left
    · rw [hudesc_ne j hjf] at hvj ⊢
      obtain ⟨h1, h2⟩ := hval j hj hvj
      refine ⟨h1, ?_⟩
      rw [huhash]
      exact List.mem_cons_of_mem _ h2

theorem Inv_unPinPage (fid p : Nat) (b : Bool) (s : BufState) (h : Inv s) :
    Inv (unPinPage fid p b s).2 := by
  unfold unPinPage
  cases hl : hashLookup s fid p with
  | none => exact h
  | some f =>
      simp only
      split
      · exact h
      · exact Inv_setDesc_sameRes s f _ rfl rfl rfl h

theorem Inv_readPage (disk : Nat → Nat → Option Page) (fid p : Nat)
    (s : BufState) (h : Inv s) : Inv (readPage disk fid p s).2 := by
  unfold readPage
  cases hl : hashLookup s fid p with
  | some i =>
      simp only
      exact Inv_setDesc_sameRes s i _ rfl rfl rfl h
  | none =>
      simp only
      cases hab : allocBuf s with
      | mk res s1 =>
          cases res with
          | error e =>
              have := Inv_allocBuf s h
              rw [hab] at this
              exact this
          | ok f =>
              cases hd : disk fid p with
              | none =>
                  have := Inv_allocBuf s h
                  rw [hab] at this
                  exact this
              | some pg =>
                  simp only
                  have hInv1 : Inv s1 := by
                    have := Inv_allocBuf s h
                    rw [hab] at this
                    exact this
                  obtain ⟨hf, hnb, hlen1, hclear, _, _, hsub⟩ :=
                    allocBuf_ok_frame s f s1 h.1 hab
                  refine Inv_load s1 fid p f _ (by rw [hnb]; exact hf) ?_ ?_ hInv1
                  · rw [hclear]
                    rfl
                  · intro e he
                    exact (hashLookup_eq_none s fid p).mp hl e (hsub e he)

theorem Inv_allocPage (fid : Nat) (pg : Page) (s : BufState) (h : Inv s)
    (hfresh : hashLookup s fid pg.pageNo = none) :
    Inv (allocPage fid pg s).2 := by
  unfold allocPage
  cases hab : allocBuf s with
  | mk res s1 =>
      cases res with
      | error e =>
          have := Inv_allocBuf s h
          rw [hab] at this
          exact this
      | ok f =>
          simp only
          have hInv1 : Inv s1 := by
            have := Inv_allocBuf s h
            rw [hab] at this
            exact this
          obtain ⟨hf, hnb, hlen1, hclear, _, _, hsub⟩ :=
            allocBuf_ok_frame s f s1 h.1 hab
          refine Inv_load s1 fid pg.pageNo f _ (by rw [hnb]; exact hf) ?_ ?_ hInv1
          · rw [hclear]
            rfl
          · intro e he
            exact (hashLookup_eq_none s fid pg.pageNo).mp hfresh e (hsub e he)

theorem Inv_flushStep (fid : Nat) (s : BufState) (i : Nat)
    (hv : (getDesc s i).valid = true)
    (hfid : (getDesc s i).fileId = some fid) (h : Inv s) :
    Inv (flushStep fid s i) := by
  have hlt : i < s.bufDescTable.length := by
    rw [h.1]
    exact h.valid_lt i hv
  unfold flushStep
  set s1 : BufState := { s with writeLog :=
    (fid, getPage s (getDesc s i).frameNo) :: s.writeLog } with hs1
  have h1 : Inv s1 := h
  set s2 : BufState := setDesc s1 i { getDesc s1 i with dirty := false }
    with hs2
  have h2 : Inv s2 := Inv_setDesc_sameRes s1 i _ rfl rfl rfl h1
  have hg2 : getDesc s2 i = { getDesc s i with dirty := false } :=
    getDesc_setDesc_self s1 i _ hlt
  have hv2 : (getDesc s2 i).valid = true := by
    rw [hg2]
    exact hv
  have hfid2 : (getDesc s2 i).fileId.getD 0 = fid := by
    rw [hg2]
    show (getDesc s i).fileId.getD 0 = fid
    rw [hfid]
    rfl
  have hpn2 : (getDesc s2 i).pageNo = (getDesc s i).pageNo := by
    rw [hg2]
  have := Inv_clear_remove s2 i hv2 h2
  rw [hfid2, hpn2] at this
  exact this

theorem Inv_flushLoop (fid : Nat) (rem : Nat) :
    ∀ s i, Inv s → Inv (flushLoop fid s i rem).2 := by
  induction rem with
  | zero =>
      intro s i h
      exact h
  | succ n ih =>
      intro s i h
      simp only [flushLoop]
      split
      · rename_i hfid
        split
        · exact h
        · split
          · exact h
          · split
            · rename_i hval hpin hdirty
              refine ih _ (i + 1) ?_
              exact Inv_flushStep fid s i (by simpa using hval) hfid h
            · exact ih s (i + 1) h
      · exact ih s (i + 1) h

theorem Inv_flushFile (fid : Nat) (s : BufState) (h : Inv s) :
    Inv (flushFile fid s).2 :=
  Inv_flushLoop fid s.numBufs s 0 h

theorem Inv_disposePage (fid p : Nat) (s : BufState) (h : Inv s) :
    Inv (disposePage fid p s).2 := by
  unfold disposePage
  cases hl : hashLookup s fid p with
  | none => exact h
  | some f =>
      simp only
      have hmem := hashLookup_mem s fid p f hl
      have hok := h.2.2.1 _ hmem
      have h2 : (getDesc s f).valid = true := hok.2.1
      have h3 : (getDesc s f).fileId = some fid := hok.2.2.1
      have h4 : (getDesc s f).pageNo = p := hok.2.2.2
      have hgd : (getDesc s f).fileId.getD 0 = fid := by
        rw [h3]
        rfl
      show Inv (hashRemove (clearFrame s f) fid p)
      have hcomm : hashRemove (clearFrame s f) fid p =
          clearFrame (hashRemove s fid p) f := rfl
      rw [hcomm, ← hgd, ← h4]
      exact Inv_clear_remove s f h2 h

/-- The state built by the constructor satisfies the invariant. -/
theorem getDesc_init (n i : Nat) (h : i < n) :
    getDesc (initState n) i = { defaultDesc with frameNo := i } := by
  unfold getDesc initState initDescs
  simp [List.getD_eq_getElem?_getD, List.getElem?_map, List.getElem?_range, h]

theorem Inv_init (n : Nat) : Inv (initState n) := by
  refine ⟨by simp [initState, initDescs], by simp [initState], ?_, ?_⟩
  · intro e he
    simp [initState] at he
  · intro i hi hv
    exfalso
    rw [show (initState n).numBufs = n from rfl] at hi
    rw [getDesc_init n i (List.mem_range.mp hi)] at hv
    simp [defaultDesc] at hv

/-! ### Behaviour of the `flushFile` scan -/

theorem valid_lt_length (s : BufState) (i : Nat)
    (hv : (getDesc s i).valid = true) : i < s.bufDescTable.length := by
  by_contra hge
  have : getDesc s i = defaultDesc :=
    List.getD_eq_default _ _ (Nat.le_of_not_lt hge)
  rw [this] at hv
  simp [defaultDesc] at hv

theorem flushStep_numBufs (fid : Nat) (s : BufState) (i : Nat) :
    (flushStep fid s i).numBufs = s.numBufs := rfl

theorem flushStep_pool (fid : Nat) (s : BufState) (i : Nat) :
    (flushStep fid s i).bufPool = s.bufPool := rfl

theorem flushStep_wlog (fid : Nat) (s : BufState) (i : Nat) :
    (flushStep fid s i).writeLog =
      (fid, getPage s (getDesc s i).frameNo) :: s.writeLog := rfl

theorem flushStep_hash (fid : Nat) (s : BufState) (i : Nat) :
    (flushStep fid s i).hashTable = s.hashTable.filter
      (fun e => !decide (e.1 = (fid, (getDesc s i).pageNo))) := rfl

theorem getDesc_flushStep_ne (fid : Nat) (s : BufState) (i j : Nat)
    (hij : j ≠ i) : getDesc (flushStep fid s i) j = getDesc s j := by
  unfold flushStep clearFrame
  rw [getDesc_setDesc_ne _ i j _ (fun hx => hij hx.symm)]
  rw [getDesc_hashRemove]
  exact getDesc_setDesc_ne _ i j _ (fun hx => hij hx.symm)

theorem getDesc_flushStep_self (fid : Nat) (s : BufState) (i : Nat)
    (hlt : i < s.bufDescTable.length) :
    getDesc (flushStep fid s i) i = (getDesc s i).Clear := by
  unfold flushStep clearFrame
  rw [getDesc_setDesc_self]
  · rw [getDesc_hashRemove, getDesc_setDesc_self]
    · rfl
    · simpa using hlt
  · simpa [hashRemove] using hlt

theorem flushLoop_getDesc_lt (fid : Nat) (rem : Nat) :
    ∀ s i k, k < i → getDesc (flushLoop fid s i rem).2 k = getDesc s k := by
  induction rem with
  | zero =>
      intro s i k _
      rfl
  | succ n ih =>
      intro s i k hk
      simp only [flushLoop]
      split
      · split
        · rfl
        · split
          · rfl
          · split
            · rw [ih _ (i + 1) k (by omega)]
              exact getDesc_flushStep_ne fid s i k (by omega)
            · exact ih s (i + 1) k (by omega)
      · exact ih s (i + 1) k (by omega)

theorem flushLoop_wlog_mono (fid : Nat) (rem : Nat) :
    ∀ s i e, e ∈ s.writeLog → e ∈ (flushLoop fid s i rem).2.writeLog := by
  induction rem with
  | zero =>
      intro s i e he
      exact he
  | succ n ih =>
      intro s i e he
      simp only [flushLoop]
      split
      · split
        · exact he
        · split
          · exact he
          · split
            · refine ih _ (i + 1) e ?_
              rw [flushStep_wlog]
              exact List.mem_cons_of_mem _ he
            · exact ih s (i + 1) e he
      · exact ih s (i + 1) e he

theorem flushLoop_hash_subset (fid : Nat) (rem : Nat) :
    ∀ s i e, e ∈ (flushLoop fid s i rem).2.hashTable → e ∈ s.hashTable := by
  induction rem with
  | zero =>
      intro s i e he
      exact he
  | succ n ih =>
      intro s i e he
      simp only [flushLoop] at he
      split at he
      · split at he
        · exact he
        · split at he
          · exact he
          · split at he
            · have := ih _ (i + 1) e he
              rw [flushStep_hash] at this
              exact (List.mem_filter.mp this).1
            · exact ih s (i + 1) e he
      · exact ih s (i + 1) e he

/-- What a successful `flushFile` scan does to each frame of the file in its
range: such a frame must have been unpinned; a dirty one is written back,
deindexed and cleared; a clean one is left exactly as it was. -/
theorem flushLoop_frame_spec (fid : Nat) (rem : Nat) :
    ∀ s i j u s', flushLoop fid s i rem = (.ok u, s') →
      i ≤ j → j < i + rem →
      (getDesc s j).fileId = some fid → (getDesc s j).valid = true →
      (getDesc s j).pinCnt = 0 ∧
      ((getDesc s j).dirty = true →
        getDesc s' j = (getDesc s j).Clear ∧
        (fid, getPage s (getDesc s j).frameNo) ∈ s'.writeLog ∧
        (∀ k, ((fid, (getDesc s j).pageNo), k) ∉ s'.hashTable)) ∧
      ((getDesc s j).dirty = false → getDesc s' j = getDesc s j) := by
  induction rem with
  | zero =>
      intro s i j u s' _ hij hjr
      omega
  | succ n ih =>
      intro s i j u s' h hij hjr hfid hv
      simp only [flushLoop] at h
      by_cases hji : j = i
      · subst hji
        rw [if_pos hfid] at h
        rw [if_neg (by simp [hv])] at h
        split at h
        · simp at h
        · rename_i hpin
          have hpin0 : (getDesc s j).pinCnt = 0 := by omega
          split at h
          · rename_i hdirty
            have hs' : s' = (flushLoop fid (flushStep fid s j) (j + 1) n).2 :=
              (congrArg Prod.snd h).symm
            refine ⟨hpin0, ?_, ?_⟩
            · intro _
              have hlt : j < s.bufDescTable.length := valid_lt_length s j hv
              refine ⟨?_, ?_, ?_⟩
              · rw [hs', flushLoop_getDesc_lt fid n _ (j + 1) j (by omega)]
                exact getDesc_flushStep_self fid s j hlt
              · rw [hs']
                refine flushLoop_wlog_mono fid n _ (j + 1) _ ?_
                rw [flushStep_wlog]
                exact List.mem_cons_self _ _
              · intro k hk
                rw [hs'] at hk
                have := flushLoop_hash_subset fid n _ (j + 1) _ hk
                rw [flushStep_hash, List.mem_filter] at this
                simp at this
            · intro hclean
              rw [hclean] at hdirty
              cases hdirty
          · rename_i hdirty
            have hclean : (getDesc s j).dirty = false := by
              simpa using hdirty
            have hs' : s' = (flushLoop fid s (j + 1) n).2 :=
              (congrArg Prod.snd h).symm
            refine ⟨hpin0, ?_, ?_⟩
            · intro hd
              rw [hd] at hclean
              cases hclean
            · intro _
              rw [hs']
              exact flushLoop_getDesc_lt fid n s (j + 1) j (by omega)
      · have hij' : i + 1 ≤ j := by omega
        split at h
        · split at h
          · simp at h
          · split at h
            · simp at h
            · split at h
              · rename_i hown hval hpin hdirty
                have hg : getDesc (flushStep fid s i) j = getDesc s j :=
                  getDesc_flushStep_ne fid s i j hji
                have := ih (flushStep fid s i) (i + 1) j u s' h hij'
                  (by omega) (by rw [hg]; exact hfid) (by rw [hg]; exact hv)
                rw [hg] at this
                have hpg : getPage (flushStep fid s i)
                    (getDesc s j).frameNo = getPage s (getDesc s j).frameNo :=
                  rfl
                rw [hpg] at this
                exact this
              · exact ih s (i + 1) j u s' h hij' (by omega) hfid hv
        · exact ih s (i + 1) j u s' h hij' (by omega) hfid hv

/-! ### Decidable equality of operation results -/

instance {α β : Type} [DecidableEq α] [DecidableEq β] :
    DecidableEq (Except α β) := fun a b =>
  match a, b with
  | .ok x, .ok y =>
      if h : x = y then .isTrue (by rw [h])
      else .isFalse (fun hc => h (by cases hc; rfl))
  | .ok _, .error _ => .isFalse (fun hc => by cases hc)
  | .error _, .ok _ => .isFalse (fun hc => by cases hc)
  | .error x, .error y =>
      if h : x = y then .isTrue (by rw [h])
      else .isFalse (fun hc => h (by cases hc; rfl))

/-! ### Concrete example states used by the claim checks -/

/-- A pool of one frame holding page 5 of file 2, pinned once (scenario D:
fetch then unpin twice). -/
def exC6pinned : BufState :=
  { numBufs := 1
    bufDescTable := [⟨0, some 2, 5, 1, false, true, true⟩]
    bufPool := [⟨5, 11⟩]
    hashTable := [((2, 5), 0)]
    clockHand := 0
    writeLog := []
    deleteLog := [] }

/-! ### Claim theorems -/

/-- C1: no eviction under pin.  Whenever `allocBuf` returns a frame, that
frame — at the moment it was claimed, whose descriptor's pin count and
validity the scan never alters — either held no page (`valid = false`) or had
pin count zero.  A frame holding a page with a nonzero pin count is never
selected, for any number of clock-scan steps. -/
theorem allocBuf_never_evicts_pinned (s : BufState) (f : Nat) (s' : BufState)
    (h : allocBuf s = (.ok f, s')) :
    (getDesc s f).valid = false ∨ (getDesc s f).pinCnt = 0 := by
  have hit := allocBuf_ok_iter s f s' h
  obtain ⟨t, hst, _, hfr, _⟩ := allocIter_ok_spec _ s 0 f s' hit
  have hc := (descCore_eq_iff _ _).mp (hst.core f)
  rcases hfr with hv | hp
  · left
    rw [hc.2.2.2.2.2] at hv
    exact hv
  · right
    rw [hc.2.2.2.1] at hp
    exact hp

theorem allocBuf_never_evicts_pinned_check :
    (getDesc (initState 1) 0).valid = false ∨
      (getDesc (initState 1) 0).pinCnt = 0 :=
  allocBuf_never_evicts_pinned (initState 1) 0 (allocBuf (initState 1)).2
    (by decide)

/-- C3: the eviction scan terminates within `2 × numFrames` clock-scan steps
for every pool state — the fuel-indexed loop settles with fuel
`2 * numBufs` — and its outcome is either a frame or
`BufferExceededException` (`PoolExhausted`), for every pin/refbit/dirty
configuration, including all frames pinned. -/
theorem allocBuf_terminates_two_sweeps (s : BufState)
    (hlen : s.bufDescTable.length = s.numBufs) (h0 : 0 < s.numBufs) :
    (allocIter s 0 (2 * s.numBufs)).isSome = true ∧
      ((∃ f, (allocBuf s).1 = .ok f) ∨
        (allocBuf s).1 = .error .bufferExceeded) := by
  have hsome := allocIter_two_sweeps s hlen h0
  refine ⟨hsome, ?_⟩
  unfold allocBuf
  cases ha : allocIter s 0 (2 * s.numBufs) with
  | none =>
      rw [ha] at hsome
      simp at hsome
  | some r =>
      obtain ⟨res, s1⟩ := r
      cases res with
      | ok f =>
          left
          exact ⟨f, rfl⟩
      | error e =>
          right
          have he := (allocIter_err_spec _ s 0 e s1 ha).1
          rw [he]
          rfl

theorem allocBuf_terminates_two_sweeps_check :
    (allocIter (initState 1) 0 (2 * (initState 1).numBufs)).isSome = true ∧
      ((∃ f, (allocBuf (initState 1)).1 = .ok f) ∨
        (allocBuf (initState 1)).1 = .error .bufferExceeded) :=
  allocBuf_terminates_two_sweeps (initState 1) (by decide) (by decide)

/-- C6: `unPinPage` behaviour.  A page that is not resident is a silent
no-op (no error, no state change); a resident page with pin count 0 fails
with `PageNotPinnedException` and changes nothing; otherwise the pin count
drops by exactly one and the dirty flag becomes `isDirty || old` — set when
`isDirty`, and never cleared by an unpin. -/
theorem unPinPage_cases (fid p : Nat) (b : Bool) (s : BufState) :
    (hashLookup s fid p = none → unPinPage fid p b s = (.ok (), s)) ∧
    (∀ f, hashLookup s fid p = some f → (getDesc s f).pinCnt = 0 →
      unPinPage fid p b s = (.error .pageNotPinned, s)) ∧
    (∀ f, hashLookup s fid p = some f → 0 < (getDesc s f).pinCnt →
      unPinPage fid p b s = (.ok (), setDesc s f
        { getDesc s f with
          dirty := b || (getDesc s f).dirty,
          pinCnt := (getDesc s f).pinCnt - 1 })) := by
  refine ⟨?_, ?_, ?_⟩
  · intro hl
    unfold unPinPage
    rw [hl]
  · intro f hl hp
    unfold unPinPage
    rw [hl]
    simp only
    rw [if_pos hp]
  · intro f hl hp
    unfold unPinPage
    rw [hl]
    simp only
    rw [if_neg (by omega)]

theorem unPinPage_cases_check :
    unPinPage 3 9 true (initState 1) = (.ok (), initState 1) ∧
      unPinPage 2 5 false exC6pinned = (.ok (), setDesc exC6pinned 0
        { getDesc exC6pinned 0 with
            dirty := false || (getDesc exC6pinned 0).dirty,
            pinCnt := (getDesc exC6pinned 0).pinCnt - 1 }) ∧
      unPinPage 2 5 true (unPinPage 2 5 false exC6pinned).2 =
        (.error .pageNotPinned, (unPinPage 2 5 false exC6pinned).2) :=
  ⟨(unPinPage_cases 3 9 true (initState 1)).1 (by decide),
   (unPinPage_cases 2 5 false exC6pinned).2.2 0 (by decide) (by decide),
   (unPinPage_cases 2 5 true (unPinPage 2 5 false exC6pinned).2).2.1 0
     (by decide) (by decide)⟩

@[simp] theorem hashRemove_hash (s : BufState) (fid p : Nat) :
    (hashRemove s fid p).hashTable =
      s.hashTable.filter (fun e => !decide (e.1 = (fid, p))) := rfl

theorem getPage_eq_of_pool {s t : BufState} (h : t.bufPool = s.bufPool)
    (f : Nat) : getPage t f = getPage s f := by
  unfold getPage
  rw [h]

theorem getDesc_clearFrame_self (s : BufState) (i : Nat)
    (h : i < s.bufDescTable.length) :
    getDesc (clearFrame s i) i = (getDesc s i).Clear :=
  getDesc_setDesc_self _ _ _ h

/-- A pool of one frame holding page 7 of file 3, pinned twice (for the C5
hit check). -/
def exC5hit : BufState :=
  { numBufs := 1
    bufDescTable := [⟨0, some 3, 7, 2, false, false, true⟩]
    bufPool := [⟨7, 1⟩]
    hashTable := [((3, 7), 0)]
    clockHand := 0
    writeLog := []
    deleteLog := [] }

/-- C5: every successful `readPage` pins exactly one more reference.  On a
hit the result state is exactly the old state with the recency bit set and
the pin count incremented by one, and no write I/O happens (the state
equation involves no disk access and the write log is untouched).  On a miss
the claimed frame's descriptor is initialized to
`valid = true, pinCount = 1, refBit = true, dirty = false` with the owner and
page recorded, the read page is installed in the pool slot, and the index
entry is inserted. -/
theorem readPage_pin_effects (disk : Nat → Nat → Option Page) (fid p : Nat)
    (s : BufState) :
    (∀ i, hashLookup s fid p = some i →
      readPage disk fid p s = (.ok i, setDesc s i
        { getDesc s i with
          refbit := true,
          pinCnt := (getDesc s i).pinCnt + 1 }) ∧
      (readPage disk fid p s).2.writeLog = s.writeLog) ∧
    (∀ f s1 pg, hashLookup s fid p = none →
      s.bufDescTable.length = s.numBufs → s.bufPool.length = s.numBufs →
      allocBuf s = (.ok f, s1) → disk fid p = some pg →
      (readPage disk fid p s).1 = .ok f ∧
      getDesc (readPage disk fid p s).2 f =
        { frameNo := (getDesc s1 f).frameNo, fileId := some fid, pageNo := p,
          pinCnt := 1, dirty := false, refbit := true, valid := true } ∧
      getPage (readPage disk fid p s).2 f = pg ∧
      (readPage disk fid p s).2.hashTable = ((fid, p), f) :: s1.hashTable) := by
  constructor
  · intro i hl
    constructor
    · unfold readPage
      rw [hl]
    · unfold readPage
      rw [hl]
      rfl
  · intro f s1 pg hl hlen hplen hab hd
    obtain ⟨hf, hnb, hlen1, hclear, hpool, _, _⟩ :=
      allocBuf_ok_frame s f s1 hlen hab
    have hlt : f < s1.bufDescTable.length := by
      rw [hlen1]
      exact hf
    refine ⟨?_, ?_, ?_, ?_⟩
    · unfold readPage
      rw [hl, hab, hd]
    · unfold readPage
      rw [hl, hab, hd]
      show getDesc (setDesc (hashInsert
        { s1 with bufPool := s1.bufPool.set f pg } fid p f) f
        ((getDesc (hashInsert
          { s1 with bufPool := s1.bufPool.set f pg } fid p f) f).Set fid p)) f
        = _
      rw [getDesc_setDesc_self _ f _ (by simpa using hlt)]
      show (getDesc s1 f).Set fid p = _
      unfold BufDesc.Set
      rfl
    · unfold readPage
      rw [hl, hab, hd]
      show (s1.bufPool.set f pg).getD f defaultPage = pg
      refine getD_set_self _ _ _ _ ?_
      rw [hpool, hplen]
      exact hf
    · unfold readPage
      rw [hl, hab, hd]
      rfl

theorem readPage_pin_effects_check :
    (readPage (fun _ _ => some ⟨7, 42⟩) 3 7 exC5hit = (.ok 0, setDesc exC5hit 0
        { getDesc exC5hit 0 with
          refbit := true,
          pinCnt := (getDesc exC5hit 0).pinCnt + 1 }) ∧
      (readPage (fun _ _ => some ⟨7, 42⟩) 3 7 exC5hit).2.writeLog
        = exC5hit.writeLog) ∧
    ((readPage (fun _ _ => some ⟨7, 42⟩) 3 7 (initState 1)).1 = .ok 0 ∧
      getDesc (readPage (fun _ _ => some ⟨7, 42⟩) 3 7 (initState 1)).2 0 =
        { frameNo := (getDesc (allocBuf (initState 1)).2 0).frameNo,
          fileId := some 3, pageNo := 7, pinCnt := 1, dirty := false,
          refbit := true, valid := true } ∧
      getPage (readPage (fun _ _ => some ⟨7, 42⟩) 3 7 (initState 1)).2 0
        = ⟨7, 42⟩ ∧
      (readPage (fun _ _ => some ⟨7, 42⟩) 3 7 (initState 1)).2.hashTable =
        ((3, 7), 0) :: (allocBuf (initState 1)).2.hashTable) :=
  ⟨(readPage_pin_effects (fun _ _ => some ⟨7, 42⟩) 3 7 exC5hit).1 0 (by decide),
   (readPage_pin_effects (fun _ _ => some ⟨7, 42⟩) 3 7 (initState 1)).2 0
     (allocBuf (initState 1)).2 ⟨7, 42⟩ (by decide) (by decide) (by decide)
     (by decide) (by decide)⟩

/-- A pool of one frame holding a dirty, unpinned page 7 of file 4 (for the
C7 writeback check). -/
def exC7dirty : BufState :=
  { numBufs := 1
    bufDescTable := [⟨0, some 4, 7, 0, true, false, true⟩]
    bufPool := [⟨7, 9⟩]
    hashTable := [((4, 7), 0)]
    clockHand := 0
    writeLog := []
    deleteLog := [] }

/-- C7: when the eviction scan claims a valid victim, a dirty one has its
current pool content written back through its owning file (the write log
records the pre-eviction bytes, so the writeback happens before the frame is
reused), and a clean one is reused with no writeback; in both cases the
victim's index entry is removed and its descriptor cleared. -/
theorem allocBuf_dirty_writeback (s : BufState) (f : Nat) (s' : BufState)
    (h : allocBuf s = (.ok f, s')) (hv : (getDesc s f).valid = true) :
    ((getDesc s f).dirty = true →
      s'.writeLog = ((getDesc s f).fileId.getD 0, getPage s f)
        :: s.writeLog) ∧
    ((getDesc s f).dirty = false → s'.writeLog = s.writeLog) ∧
    (∀ k, (((getDesc s f).fileId.getD 0, (getDesc s f).pageNo), k) ∉
      s'.hashTable) ∧
    getDesc s' f = (getDesc s f).Clear := by
  have hit := allocBuf_ok_iter s f s' h
  obtain ⟨t, hst, _, _, hcl⟩ := allocIter_ok_spec _ s 0 f s' hit
  have hc := (descCore_eq_iff _ _).mp (hst.core f)
  have hfrm : (getDesc t f).frameNo = (getDesc s f).frameNo := hc.1
  have hfe : (getDesc t f).fileId = (getDesc s f).fileId := hc.2.1
  have hpe : (getDesc t f).pageNo = (getDesc s f).pageNo := hc.2.2.1
  have hde : (getDesc t f).dirty = (getDesc s f).dirty := hc.2.2.2.2.1
  have hve : (getDesc t f).valid = (getDesc s f).valid := hc.2.2.2.2.2
  have hvt : (getDesc t f).valid = true := by
    rw [hve]
    exact hv
  have hflt : f < t.bufDescTable.length := valid_lt_length t f hvt
  have hclaim : s' = clearFrame (hashRemove
      (if (getDesc t f).dirty = true then
        { t with writeLog := ((getDesc t f).fileId.getD 0, getPage t f)
          :: t.writeLog }
      else t) ((getDesc t f).fileId.getD 0) (getDesc t f).pageNo) f := by
    rw [hcl]
    simp only [claimFrame]
    rw [if_neg (by simp [hvt])]
  refine ⟨?_, ?_, ?_, ?_⟩
  · intro hd
    have hdt : (getDesc t f).dirty = true := by
      rw [hde]
      exact hd
    rw [hclaim, clearFrame_wlog, if_pos hdt]
    show ((getDesc t f).fileId.getD 0, getPage t f) :: t.writeLog = _
    rw [hfe, getPage_eq_of_pool hst.pool, hst.wlog]
  · intro hd
    have hdt : ¬(getDesc t f).dirty = true := by
      rw [hde, hd]
      simp
    rw [hclaim, clearFrame_wlog, if_neg hdt]
    show t.writeLog = s.writeLog
    exact hst.wlog
  · intro k hk
    rw [hclaim, clearFrame_hash, hashRemove_hash, List.mem_filter] at hk
    have hpred := hk.2
    rw [hfe, hpe] at hpred
    simp at hpred
  · rw [hclaim, getDesc_clearFrame_self]
    · rw [getDesc_hashRemove]
      have hgx : getDesc (if (getDesc t f).dirty = true then
          { t with writeLog := ((getDesc t f).fileId.getD 0, getPage t f)
            :: t.writeLog } else t) f = getDesc t f := by
        split
        · rfl
        · rfl
      rw [hgx]
      unfold BufDesc.Clear
      rw [hfrm]
    · show f < (if (getDesc t f).dirty = true then
        { t with writeLog := ((getDesc t f).fileId.getD 0, getPage t f)
          :: t.writeLog } else t).bufDescTable.length
      split
      · exact hflt
      · exact hflt

theorem allocBuf_dirty_writeback_check :
    ((getDesc exC7dirty 0).dirty = true →
      (allocBuf exC7dirty).2.writeLog =
        ((getDesc exC7dirty 0).fileId.getD 0, getPage exC7dirty 0)
          :: exC7dirty.writeLog) ∧
    ((getDesc exC7dirty 0).dirty = false →
      (allocBuf exC7dirty).2.writeLog = exC7dirty.writeLog) ∧
    (∀ k, (((getDesc exC7dirty 0).fileId.getD 0,
        (getDesc exC7dirty 0).pageNo), k) ∉
      (allocBuf exC7dirty).2.hashTable) ∧
    getDesc (allocBuf exC7dirty).2 0 = (getDesc exC7dirty 0).Clear :=
  allocBuf_dirty_writeback exC7dirty 0 (allocBuf exC7dirty).2
    (by decide) (by decide)

/-- C8: the residency invariant.  The constructor state satisfies `Inv`; in
any `Inv` state at most one frame is valid for a given (file, page) key
(descriptor table and index agree, keys unique — so a second mapping for an
already-resident key is never inserted); and every operation preserves `Inv`
(for `allocPage` under the file collaborator's guarantee that the fresh page
is not already resident). -/
theorem residency_invariant :
    (∀ n, Inv (initState n)) ∧
    (∀ s, Inv s → ∀ i j, (getDesc s i).valid = true →
      (getDesc s j).valid = true →
      (getDesc s i).fileId = (getDesc s j).fileId →
      (getDesc s i).pageNo = (getDesc s j).pageNo → i = j) ∧
    (∀ s, Inv s → Inv (allocBuf s).2) ∧
    (∀ disk fid p s, Inv s → Inv (readPage disk fid p s).2) ∧
    (∀ fid p b s, Inv s → Inv (unPinPage fid p b s).2) ∧
    (∀ fid s, Inv s → Inv (flushFile fid s).2) ∧
    (∀ fid pg s, Inv s → hashLookup s fid pg.pageNo = none →
      Inv (allocPage fid pg s).2) ∧
    (∀ fid p s, Inv s → Inv (disposePage fid p s).2) :=
  ⟨Inv_init,
   fun _ h i j => h.at_most_one i j,
   Inv_allocBuf,
   Inv_readPage,
   Inv_unPinPage,
   Inv_flushFile,
   fun fid pg s h hf => Inv_allocPage fid pg s h hf,
   Inv_disposePage⟩

theorem residency_invariant_check :
    Inv (initState 2) ∧
      Inv (readPage (fun _ _ => some ⟨6, 1⟩) 1 6 (initState 2)).2 ∧
      Inv (allocPage 1 ⟨5, 0⟩ (initState 2)).2 :=
  ⟨residency_invariant.1 2,
   residency_invariant.2.2.2.1 (fun _ _ => some ⟨6, 1⟩) 1 6 (initState 2)
     (residency_invariant.1 2),
   residency_invariant.2.2.2.2.2.2.1 1 ⟨5, 0⟩ (initState 2)
     (residency_invariant.1 2) (by decide)⟩

/-- A pool of one frame holding a dirty page 7 of file 6 pinned twice (for
the C10 check: dispose while pinned). -/
def exC10pinned : BufState :=
  { numBufs := 1
    bufDescTable := [⟨0, some 6, 7, 2, true, true, true⟩]
    bufPool := [⟨7, 13⟩]
    hashTable := [((6, 7), 0)]
    clockHand := 0
    writeLog := []
    deleteLog := [] }

/-- C10: `disposePage` of a resident page succeeds unconditionally — there is
no pin-count check — clearing the descriptor, removing the index entry, and
forwarding the deletion to the file collaborator, with no writeback even if
the frame was dirty.  (No pin or dirty hypothesis appears: the behaviour is
the same for pinned and dirty frames.) -/
theorem disposePage_ignores_pin (fid p : Nat) (s : BufState) (f : Nat)
    (hl : hashLookup s fid p = some f) (hlt : f < s.bufDescTable.length) :
    (disposePage fid p s).1 = .ok () ∧
    getDesc (disposePage fid p s).2 f = (getDesc s f).Clear ∧
    (∀ k, ((fid, p), k) ∉ (disposePage fid p s).2.hashTable) ∧
    (disposePage fid p s).2.deleteLog = (fid, p) :: s.deleteLog ∧
    (disposePage fid p s).2.writeLog = s.writeLog := by
  refine ⟨?_, ?_, ?_, ?_, ?_⟩
  · unfold disposePage
    rw [hl]
  · unfold disposePage
    rw [hl]
    show getDesc (clearFrame s f) f = (getDesc s f).Clear
    exact getDesc_clearFrame_self s f hlt
  · intro k hk
    unfold disposePage at hk
    rw [hl] at hk
    have hk' : ((fid, p), k) ∈ (hashRemove (clearFrame s f) fid p).hashTable :=
      hk
    rw [mem_hashRemove] at hk'
    exact hk'.2 rfl
  · unfold disposePage
    rw [hl]
    rfl
  · unfold disposePage
    rw [hl]
    rfl

theorem disposePage_ignores_pin_check :
    0 < (getDesc exC10pinned 0).pinCnt ∧ (getDesc exC10pinned 0).dirty = true ∧
    ((disposePage 6 7 exC10pinned).1 = .ok () ∧
      getDesc (disposePage 6 7 exC10pinned).2 0 = (getDesc exC10pinned 0).Clear ∧
      (∀ k, ((6, 7), k) ∉ (disposePage 6 7 exC10pinned).2.hashTable) ∧
      (disposePage 6 7 exC10pinned).2.deleteLog = (6, 7) :: exC10pinned.deleteLog ∧
      (disposePage 6 7 exC10pinned).2.writeLog = exC10pinned.writeLog) :=
  ⟨by decide, by decide,
   disposePage_ignores_pin 6 7 exC10pinned 0 (by decide) (by decide)⟩

/-- A pool of one frame holding a clean, unpinned page 7 of file 1 (for the
C2 counterexample: `flushFile` leaves it resident). -/
def exC2clean : BufState :=
  { numBufs := 1
    bufDescTable := [⟨0, some 1, 7, 0, false, false, true⟩]
    bufPool := [⟨7, 0⟩]
    hashTable := [((1, 7), 0)]
    clockHand := 0
    writeLog := []
    deleteLog := [] }

/-- C2 counterexample: `flushFile` on a file owning one valid, unpinned,
*clean* frame succeeds but removes nothing — the descriptor is still valid
and the index entry is still present, refuting "always removes the index
entry and clears the descriptor … when it is already clean". -/
theorem flushFile_leaves_clean_frame :
    (flushFile 1 exC2clean).1 = .ok () ∧
    (flushFile 1 exC2clean).2 = exC2clean ∧
    (getDesc (flushFile 1 exC2clean).2 0).valid = true ∧
    ((1, 7), 0) ∈ (flushFile 1 exC2clean).2.hashTable := by
  refine ⟨rfl, by decide, rfl, by decide⟩

/-- C2 (amended): for every frame of the file that is valid and unpinned, a
successful `flushFile` removes the index entry and clears the descriptor
*only when the frame is dirty* (after writing it back); a clean frame is
left exactly as it was, still resident.  (A successful run also certifies
the frame was unpinned.) -/
theorem flushFile_clears_only_dirty (fid : Nat) (s : BufState) (u : Unit)
    (s' : BufState) (h : flushFile fid s = (.ok u, s')) (j : Nat)
    (hj : j < s.numBufs) (hfid : (getDesc s j).fileId = some fid)
    (hv : (getDesc s j).valid = true) :
    (getDesc s j).pinCnt = 0 ∧
    ((getDesc s j).dirty = true →
      getDesc s' j = (getDesc s j).Clear ∧
      (fid, getPage s (getDesc s j).frameNo) ∈ s'.writeLog ∧
      (∀ k, ((fid, (getDesc s j).pageNo), k) ∉ s'.hashTable)) ∧
    ((getDesc s j).dirty = false → getDesc s' j = getDesc s j) :=
  flushLoop_frame_spec fid s.numBufs s 0 j u s' h (Nat.zero_le j)
    (by omega) hfid hv

theorem flushFile_clears_only_dirty_check :
    (getDesc exC2clean 0).pinCnt = 0 ∧
    ((getDesc exC2clean 0).dirty = false →
      getDesc (flushFile 1 exC2clean).2 0 = getDesc exC2clean 0) :=
  ⟨(flushFile_clears_only_dirty 1 exC2clean () (flushFile 1 exC2clean).2
      (by decide) 0 (by decide) (by decide) (by decide)).1,
   (flushFile_clears_only_dirty 1 exC2clean () (flushFile 1 exC2clean).2
      (by decide) 0 (by decide) (by decide) (by decide)).2.2⟩

/-- A pool of two frames of file 1: frame 0 dirty and unpinned, frame 1
pinned (for the C4 counterexample: `flushFile` fails midway). -/
def exC4partial : BufState :=
  { numBufs := 2
    bufDescTable := [⟨0, some 1, 7, 0, true, false, true⟩,
                     ⟨1, some 1, 8, 1, false, false, true⟩]
    bufPool := [⟨7, 5⟩, ⟨8, 6⟩]
    hashTable := [((1, 7), 0), ((1, 8), 1)]
    clockHand := 1
    writeLog := []
    deleteLog := [] }

/-- C4 counterexample: `flushFile` on a file with a dirty unpinned frame
followed by a pinned frame raises `PagePinnedException` but does **not**
leave the pre-operation state intact: the earlier frame has already been
written back, deindexed and cleared when the error is thrown. -/
theorem flushFile_error_mutates_state :
    (flushFile 1 exC4partial).1 = .error .pagePinned ∧
    (flushFile 1 exC4partial).2 ≠ exC4partial ∧
    getDesc (flushFile 1 exC4partial).2 0 = (getDesc exC4partial 0).Clear ∧
    (flushFile 1 exC4partial).2.writeLog = [(1, ⟨7, 5⟩)] := by
  refine ⟨rfl, by decide, by decide, rfl⟩

/-- C4 (amended): errors are reported to the immediate caller with no
internal retries, but a failing operation does not always leave the
pre-operation state intact: `flushFile` can raise `FramePinned` after
already flushing and clearing earlier frames of the file, and a failing
read in `fetchPage` keeps the eviction scan's effects.  `unpinPage` failing
with `PageNotPinned` does leave the state unchanged. -/
theorem unPinPage_error_preserves_state (fid p : Nat) (b : Bool)
    (s : BufState) (f : Nat) (hl : hashLookup s fid p = some f)
    (hp : (getDesc s f).pinCnt = 0) :
    unPinPage fid p b s = (.error .pageNotPinned, s) := by
  unfold unPinPage
  rw [hl]
  simp only
  rw [if_pos hp]

theorem unPinPage_error_preserves_state_check :
    unPinPage 1 7 true exC2clean = (.error .pageNotPinned, exC2clean) :=
  unPinPage_error_preserves_state 1 7 true exC2clean 0 (by decide) (by decide)

/-- C9 counterexample: the hash-table capacity computed by the constructor is
**not** odd for every pool size — for `numFrames = 3` the expression
`((((int)(3 * 1.2))*2)/2)+1` evaluates to 4, which is even. -/
theorem htsize_even_at_three : htsize 3 = 4 ∧ htsize 3 % 2 = 0 := by
  decide

/-- C9 (amended): the constructor computes the index capacity
`⌊numFrames × 1.2⌋ + 1`, which is odd exactly when `⌊numFrames × 1.2⌋` is
even (not for every `numFrames`; e.g. it is 4 for `numFrames = 3`);
it initializes every frame descriptor to the free state (`valid = false`,
frame number recorded), and sets the clock hand to `numFrames − 1` so the
first advance lands on frame 0. -/
theorem constructor_init_properties (n : Nat) :
    htsize n = 6 * n / 5 + 1 ∧
    (htsize n % 2 = 1 ↔ (6 * n / 5) % 2 = 0) ∧
    (∀ i, i < n → getDesc (initState n) i = { defaultDesc with frameNo := i }) ∧
    (∀ i, i < n → (getDesc (initState n) i).valid = false) ∧
    (initState n).clockHand = n - 1 ∧
    (0 < n → ((initState n).clockHand + 1) % n = 0) := by
  refine ⟨?_, ?_, ?_, ?_, rfl, ?_⟩
  · unfold htsize
    omega
  · unfold htsize
    omega
  · exact fun i hi => getDesc_init n i hi
  · intro i hi
    rw [getDesc_init n i hi]
    rfl
  · intro h0
    show (n - 1 + 1) % n = 0
    rw [Nat.sub_add_cancel h0]
    exact Nat.mod_self n

theorem constructor_init_properties_check :
    htsize 5 = 6 * 5 / 5 + 1 ∧
    getDesc (initState 5) 3 = { defaultDesc with frameNo := 3 } ∧
    (getDesc (initState 5) 3).valid = false ∧
    ((initState 5).clockHand + 1) % 5 = 0 :=
  ⟨(constructor_init_properties 5).1,
   (constructor_init_properties 5).2.2.1 3 (by decide),
   (constructor_init_properties 5).2.2.2.1 3 (by decide),
   (constructor_init_properties 5).2.2.2.2.2 (by decide)⟩

end BufferManager
